import Mathlib

/-!
# Verification of the GGB point extractor

Shallow embedding of `src/extract_points.py` (`extract_points_from_ggb`):
a converter that opens a GeoGebra `.ggb` archive (a ZIP file), reads the
`geogebra.xml` member, collects every `<element type="point">` descendant,
converts the `x`/`y` attributes of its first `coords` child to floats, and
writes the collected records to a CSV file.

Modelling decisions:
* XML documents are a tree of elements (`XElem`); attribute dictionaries are
  association lists looked up by first match (ElementTree attributes have
  unique keys, so first-match lookup is faithful).
* `root.findall(".//element[@type='point']")` is embedded as a preorder
  traversal of the *proper descendants* of `root` (CPython's `ElementPath`
  descendant selector iterates `elem.iter(tag)` and explicitly skips `elem`
  itself), filtered by tag and attribute.
* Python `float(str)` is embedded as `pyFloat`, implementing the documented
  grammar of `float` for strings (optional sign, `inf`/`infinity`/`nan`
  case-insensitively, digit parts with underscores, optional fraction and
  exponent, surrounding ASCII whitespace stripped).  The numeric value is
  kept as an exact decimal `mantissa * 10 ^ exponent`; rounding to binary64
  (and the sign of negative zero / NaN payloads) is abstracted away, as is
  the overflow of huge exponents to infinity.
* The filesystem is a map from paths to file contents; ZIP and XML decoding
  of raw bytes are library primitives, embedded by their observable outcome
  (`FileContent.notZip`, `XmlSource.malformed`, `XmlSource.wellFormed`).
* The run's effects (returned value or raised error, printed conversion
  warnings, files written) are collected in a `RunResult`; Python exceptions
  become the `ExtractErr` sum (`FileNotFoundError` vs the three `ValueError`
  cases raised by the `except` clauses).
* The CSV writer (`csv.DictWriter` on a `utf-8-sig` file, default `excel`
  dialect) is embedded at the character level: fields containing a comma,
  quote, CR or LF are quoted with `"` doubled, rows are comma-joined and
  terminated by CRLF.  The BOM written by the `utf-8-sig` codec is an
  encoding artifact outside the character-level model.
-/

/-! ## XML document model -/

/-- An XML element: tag, attributes (unique keys), children in document
order.  Text content is irrelevant to the extractor and is not modelled. -/
inductive XElem : Type where
  | mk (tag : String) (attrs : List (String × String)) (children : List XElem)

def XElem.tag : XElem → String
  | .mk t _ _ => t

def XElem.attrs : XElem → List (String × String)
  | .mk _ a _ => a

def XElem.children : XElem → List XElem
  | .mk _ _ cs => cs

/-- First-match lookup in an attribute list (ElementTree attributes are a
dict, so keys are unique and first-match lookup coincides with dict lookup). -/
def lookupAttr : List (String × String) → String → Option String
  | [], _ => none
  | (k, v) :: rest, key => if k = key then some v else lookupAttr rest key

/-- `e.get(key, dflt)` of ElementTree: attribute value or the default. -/
def XElem.get (e : XElem) (key dflt : String) : String :=
  (lookupAttr e.attrs key).getD dflt

/-- First child with the given tag, as `e.find(tag)` for a plain tag path. -/
def findChild : List XElem → String → Option XElem
  | [], _ => none
  | c :: rest, t => if c.tag = t then some c else findChild rest t

/-- `e.find(tag)` of ElementTree for a single-tag path: first direct child
whose tag matches, `none` if there is no such child. -/
def XElem.find (e : XElem) (t : String) : Option XElem :=
  findChild e.children t

mutual
/-- All proper descendants of an element, in document (preorder) order.
This is the candidate stream of `findall(".//tag")`, which iterates the
subtree via `elem.iter` and skips the element itself. -/
def descendants : XElem → List XElem
  | .mk _ _ cs => descList cs

/-- Descendant stream of a forest of sibling subtrees, in document order. -/
def descList : List XElem → List XElem
  | [] => []
  | c :: rest => c :: descendants c ++ descList rest
end

/-- The filter of `findall(".//element[@type='point']")`: tag is `element`
and the `type` attribute is present and equal to `point`. -/
def isPointElement (e : XElem) : Bool :=
  e.tag == "element" &&
    (match lookupAttr e.attrs "type" with
     | some v => v == "point"
     | none => false)

/-- `root.findall(".//element[@type='point']")`: every proper descendant of
`root` passing the tag/attribute filter, in document order. -/
def pointElements (root : XElem) : List XElem :=
  (descendants root).filter isPointElement

/-! ## Python `float(str)` -/

/-- The result of a successful Python `float` conversion.  A finite value is
kept as the exact decimal `m * 10 ^ e10` denoted by the literal; rounding to
binary64 is abstracted (the spec compares values "modulo the original
floating-point representation"). -/
inductive PyFloat : Type where
  | finite (m : Int) (e10 : Int)
  | inf (neg : Bool)
  | nan
deriving DecidableEq

def PyFloat.isFinite : PyFloat → Bool
  | .finite _ _ => true
  | _ => false

def isPyDigit (c : Char) : Bool :=
  '0' ≤ c && c ≤ '9'

def digitVal (c : Char) : Nat :=
  c.toNat - '0'.toNat

/-- ASCII whitespace stripped by `float` around the literal. -/
def isPySpace (c : Char) : Bool :=
  c == ' ' || c == '\t' || c == '\n' || c == '\r' || c == '\x0b' || c == '\x0c'

def stripWS (s : List Char) : List Char :=
  ((s.dropWhile isPySpace).reverse.dropWhile isPySpace).reverse

/-- Continue a `digitpart` (`digit (["_"] digit)*`): consume further digits,
allowing a single underscore between two digits, returning the accumulated
value, the digit count, and the unconsumed rest. -/
def digitsCont (acc nd : Nat) : List Char → Nat × Nat × List Char
  | '_' :: c :: cs =>
      if isPyDigit c then digitsCont (acc * 10 + digitVal c) (nd + 1) cs
      else (acc, nd, '_' :: c :: cs)
  | c :: cs =>
      if isPyDigit c then digitsCont (acc * 10 + digitVal c) (nd + 1) cs
      else (acc, nd, c :: cs)
  | [] => (acc, nd, [])

/-- Parse a `digitpart`: at least one digit, underscores only between
digits.  Returns value, digit count and rest. -/
def digitpart : List Char → Option (Nat × Nat × List Char)
  | c :: cs => if isPyDigit c then some (digitsCont (digitVal c) 1 cs) else none
  | [] => none

/-- Parse a `number` (`[digitpart] "." digitpart | digitpart ["."]`):
returns the mantissa (integer and fraction digits concatenated), the number
of fraction digits, and the rest. -/
def pyNumber (s : List Char) : Option (Nat × Nat × List Char) :=
  match digitpart s with
  | some (iv, _, rest) =>
      match rest with
      | '.' :: rest2 =>
          match digitpart rest2 with
          | some (fv, fd, rest3) => some (iv * 10 ^ fd + fv, fd, rest3)
          | none => some (iv, 0, rest2)
      | _ => some (iv, 0, rest)
  | none =>
      match s with
      | '.' :: rest2 => digitpart rest2
      | _ => none

/-- Parse an optional `exponent` (`("e" | "E") [sign] digitpart`); `none`
means a malformed exponent, `some (0, s)` with `s` unchanged means absent. -/
def pyExponent (s : List Char) : Option (Int × List Char) :=
  match s with
  | c :: rest =>
      if c = 'e' ∨ c = 'E' then
        match rest with
        | '+' :: r2 => (digitpart r2).map (fun t => ((t.1 : Int), t.2.2))
        | '-' :: r2 => (digitpart r2).map (fun t => (-(t.1 : Int), t.2.2))
        | _ => (digitpart rest).map (fun t => ((t.1 : Int), t.2.2))
      else some (0, c :: rest)
  | [] => some (0, [])

def toLowerAscii (c : Char) : Char :=
  if 'A' ≤ c ∧ c ≤ 'Z' then Char.ofNat (c.toNat + 32) else c

/-- Python `float(s)` on a string, by the documented grammar
`[sign] (floatnumber | infinity | nan)` with surrounding whitespace
stripped; `none` models the `ValueError` raised on a malformed literal. -/
def pyFloatChars (s0 : List Char) : Option PyFloat :=
  let s1 := stripWS s0
  let signed : Bool × List Char :=
    match s1 with
    | '+' :: r => (false, r)
    | '-' :: r => (true, r)
    | _ => (false, s1)
  let neg := signed.1
  let s2 := signed.2
  let low := s2.map toLowerAscii
  if low = "inf".data ∨ low = "infinity".data then some (.inf neg)
  else if low = "nan".data then some .nan
  else
    match pyNumber s2 with
    | none => none
    | some (m, fd, rest) =>
        match pyExponent rest with
        | some (ex, []) =>
            some (.finite (if neg then -(m : Int) else (m : Int)) (ex - (fd : Int)))
        | _ => none

def pyFloat (s : String) : Option PyFloat :=
  pyFloatChars s.data

/-! ## Records, warnings, per-element processing -/

/-- One row of the result: the dict `{'点名称': label, 'x': x, 'y': y}`. -/
structure PointRecord : Type where
  label : String
  x : PyFloat
  y : PyFloat
deriving DecidableEq

/-- The non-fatal conversion warning printed when `float` fails: it carries
the point's label and the raw attribute strings. -/
structure ConversionWarning : Type where
  label : String
  xRaw : String
  yRaw : String
deriving DecidableEq

/-- Outcome of the loop body for one selected point element. -/
inductive ElemOutcome : Type where
  | record (r : PointRecord)
  | warn (w : ConversionWarning)
  | skip
deriving DecidableEq

/-- The loop body of `extract_points_from_ggb` for one selected element:
read `label` (default `""`), find the first `coords` child (skip if none),
read `x`/`y` (skip if either is empty or absent), convert both with `float`
(warn and skip if either conversion fails), else produce a record. -/
def processElement (e : XElem) : ElemOutcome :=
  let lab := e.get "label" ""
  match e.find "coords" with
  | none => .skip
  | some coords =>
      let x := coords.get "x" ""
      let y := coords.get "y" ""
      if x ≠ "" ∧ y ≠ "" then
        match pyFloat x, pyFloat y with
        | some xv, some yv => .record ⟨lab, xv, yv⟩
        | _, _ => .warn ⟨lab, x, y⟩
      else .skip

def recordPart (e : XElem) : Option PointRecord :=
  match processElement e with
  | .record r => some r
  | _ => none

def warnPart (e : XElem) : Option ConversionWarning :=
  match processElement e with
  | .warn w => some w
  | _ => none

/-- The `points` list accumulated by the loop, in element order. -/
def outcomeRecords (es : List XElem) : List PointRecord :=
  es.filterMap recordPart

/-- The conversion warnings printed by the loop, in element order. -/
def outcomeWarnings (es : List XElem) : List ConversionWarning :=
  es.filterMap warnPart

/-! ## Default output path

`output_csv_path = os.path.join(os.path.dirname(p), Path(p).stem + "_points.csv")`,
embedded with POSIX path semantics (the platform of the original script's
shebang).  `Path(p).stem` is embedded for paths without `.` segments or
redundant structure-normalisation; the extractor only ever receives the
user-supplied archive path. -/

/-- The final component of the path: characters after the last `/`. -/
def afterLastSlash (s : List Char) : List Char :=
  (s.reverse.takeWhile (fun c => c ≠ '/')).reverse

/-- `os.path.dirname(p)` (POSIX): everything up to the last `/`, with
trailing slashes stripped unless the head is all slashes. -/
def posixDirname (p : String) : String :=
  let s := p.data
  let head := s.take (s.length - (afterLastSlash s).length)
  if head ≠ [] ∧ head.any (fun c => c ≠ '/') then
    ⟨(head.reverse.dropWhile (fun c => c = '/')).reverse⟩
  else ⟨head⟩

/-- `os.path.join(a, b)` (POSIX) for a single join. -/
def posixJoin (a b : String) : String :=
  if b.data.head? = some '/' then b
  else if a = "" ∨ a.data.getLast? = some '/' then a ++ b
  else a ++ "/" ++ b

/-- Split a character list on `/` into segments. -/
def splitSlashes : List Char → List (List Char)
  | [] => [[]]
  | c :: cs =>
      let r := splitSlashes cs
      if c = '/' then [] :: r
      else
        match r with
        | [] => [[c]]
        | seg :: rest => (c :: seg) :: rest

/-- `pathlib.PurePosixPath(p).name`: the last component, after dropping
empty and single-dot segments. -/
def pathlibName (p : String) : String :=
  ⟨((splitSlashes p.data).filter (fun seg => seg ≠ [] ∧ seg ≠ ['.'])).getLastD []⟩

/-- `pathlib.PurePosixPath(p).stem`: the name with its last suffix removed;
a suffix needs a dot that is neither leading nor trailing in the name. -/
def pathStem (p : String) : String :=
  let nm := (pathlibName p).data
  let tl := nm.reverse.takeWhile (fun c => c ≠ '.')
  -- tl = characters after the last dot (reversed); no dot iff tl covers nm
  if tl.length = nm.length ∨ tl.length = 0 ∨ tl.length + 1 = nm.length then ⟨nm⟩
  else ⟨nm.take (nm.length - tl.length - 1)⟩

/-- The default output path computed when `output_csv_path is None`. -/
def defaultOutputPath (p : String) : String :=
  posixJoin (posixDirname p) (pathStem p ++ "_points.csv")

/-! ## The archive, errors, and the extraction run -/

/-- The observable outcome of parsing a ZIP member as XML. -/
inductive XmlSource : Type where
  | malformed
  | wellFormed (root : XElem)

/-- The observable content of a file on disk: either bytes that fail to open
as a ZIP archive, or a ZIP archive given by its named members. -/
inductive FileContent : Type where
  | notZip
  | zip (members : List (String × XmlSource))

/-- `zip_ref.read(name)`: first member with the name (`KeyError` ↦ `none`). -/
def lookupMember : List (String × XmlSource) → String → Option XmlSource
  | [], _ => none
  | (n, src) :: rest, name => if n = name then some src else lookupMember rest name

/-- The errors the function raises: `FileNotFoundError` for a missing path,
and the three `ValueError`s raised by the `except` clauses (bad ZIP, missing
`geogebra.xml` member, XML parse error). -/
inductive ExtractErr : Type where
  | fileNotFound
  | badZipFile
  | missingMember
  | xmlParseError
deriving DecidableEq

/-- The spec's `FormatError` covers the three `ValueError` cases and is
distinct from `NotFoundError`. -/
def ExtractErr.isFormatError : ExtractErr → Bool
  | .fileNotFound => false
  | _ => true

instance {ε α : Type} [DecidableEq ε] [DecidableEq α] : DecidableEq (Except ε α) := fun a b =>
  match a, b with
  | .ok x, .ok y => decidable_of_iff (x = y) (by simp)
  | .error x, .error y => decidable_of_iff (x = y) (by simp)
  | .ok _, .error _ => isFalse (by simp)
  | .error _, .ok _ => isFalse (by simp)

/-- Everything observable about one call: the returned list or raised error,
the conversion warnings printed, and the files written (path, content). -/
structure RunResult : Type where
  result : Except ExtractErr (List PointRecord)
  warnings : List ConversionWarning
  files : List (String × String)
deriving DecidableEq

/-- Placeholder for the CSV serialisation; replaced below.  (Forward
declaration style is avoided: the real definition appears before `extract`.) -/
def headerFields : List (List Char) :=
  ["点名称".data, "x".data, "y".data]

/-- Does `csv.QUOTE_MINIMAL` quote this field?  Yes iff it contains the
delimiter, the quote char, or a line-terminator character. -/
def needsQuote (f : List Char) : Bool :=
  f.any (fun c => c == ',' || c == '"' || c == '\r' || c == '\n')

/-- Double every quote character in the field body. -/
def escQ : List Char → List Char
  | [] => []
  | c :: cs => if c = '"' then '"' :: '"' :: escQ cs else c :: escQ cs

/-- Render one field under `QUOTE_MINIMAL`. -/
def renderField (f : List Char) : List Char :=
  if needsQuote f then '"' :: (escQ f ++ ['"']) else f

/-- Comma-join the rendered fields of one row. -/
def renderFields : List (List Char) → List Char
  | [] => []
  | [f] => renderField f
  | f :: fs => renderField f ++ ',' :: renderFields fs

/-- One CSV row: fields joined by `,`, terminated by CRLF (the `excel`
dialect's line terminator). -/
def renderRow (fs : List (List Char)) : List Char :=
  renderFields fs ++ ['\r', '\n']

def renderRows : List (List (List Char)) → List Char
  | [] => []
  | r :: rs => renderRow r ++ renderRows rs

/-- `str()` of a float value as the writer renders it.  For finite values,
the exact decimal is rendered (binary64 shortest-round-trip repr is
abstracted to the exact decimal of the parsed literal). -/
def pyRepr : PyFloat → String
  | .nan => "nan"
  | .inf true => "-inf"
  | .inf false => "inf"
  | .finite m e10 =>
      let sgn : String := if m < 0 then "-" else ""
      let n := m.natAbs
      if 0 ≤ e10 then sgn ++ toString (n * 10 ^ e10.toNat) ++ ".0"
      else
        let k := (-e10).toNat
        let ds0 := (toString n).data
        let ds := if ds0.length ≤ k then List.replicate (k + 1 - ds0.length) '0' ++ ds0 else ds0
        sgn ++ ⟨ds.take (ds.length - k)⟩ ++ "." ++ ⟨ds.drop (ds.length - k)⟩

/-- The CSV cells of one record, as `DictWriter.writerow` renders them. -/
def recordFields (r : PointRecord) : List (List Char) :=
  [r.label.data, (pyRepr r.x).data, (pyRepr r.y).data]

/-- The full text written to the output file: header row then one row per
record, in order. -/
def renderCsvFile (recs : List PointRecord) : String :=
  ⟨renderRows (headerFields :: recs.map recordFields)⟩

/-- The whole of `extract_points_from_ggb(ggb_file_path, output_csv_path)`:
existence check, default output path, ZIP/XML decoding with its error
mapping, element selection and the conversion loop, and the final
conditional CSV write. -/
def extract_points_from_ggb (fs : String → Option FileContent)
    (ggbFilePath : String) (outputCsvPath : Option String) : RunResult :=
  match fs ggbFilePath with
  | none => ⟨.error .fileNotFound, [], []⟩
  | some content =>
      let outPath := outputCsvPath.getD (defaultOutputPath ggbFilePath)
      match content with
      | .notZip => ⟨.error .badZipFile, [], []⟩
      | .zip members =>
          match lookupMember members "geogebra.xml" with
          | none => ⟨.error .missingMember, [], []⟩
          | some .malformed => ⟨.error .xmlParseError, [], []⟩
          | some (.wellFormed root) =>
              let elems := pointElements root
              let recs := outcomeRecords elems
              ⟨.ok recs, outcomeWarnings elems,
                if recs.isEmpty then [] else [(outPath, renderCsvFile recs)]⟩

/-! ## Decidable equality of documents -/

mutual
def decEqXElem : (a b : XElem) → Decidable (a = b)
  | .mk t1 a1 cs1, .mk t2 a2 cs2 =>
      if h1 : t1 = t2 then
        if h2 : a1 = a2 then
          match decEqXList cs1 cs2 with
          | isTrue h3 => isTrue (by rw [h1, h2, h3])
          | isFalse h3 => isFalse (by simp [h3])
        else isFalse (by simp [h2])
      else isFalse (by simp [h1])

def decEqXList : (a b : List XElem) → Decidable (a = b)
  | [], [] => isTrue rfl
  | [], _ :: _ => isFalse (by simp)
  | _ :: _, [] => isFalse (by simp)
  | x :: xs, y :: ys =>
      match decEqXElem x y, decEqXList xs ys with
      | isTrue h1, isTrue h2 => isTrue (by rw [h1, h2])
      | isFalse h1, _ => isFalse (by simp [h1])
      | _, isFalse h2 => isFalse (by simp [h2])
end

instance : DecidableEq XElem := decEqXElem

/-! ## Size measure on documents (used to rule the root out of its own
descendant stream) -/

mutual
def xsize : XElem → Nat
  | .mk _ _ cs => xsizeList cs + 1

def xsizeList : List XElem → Nat
  | [] => 0
  | c :: rest => xsize c + xsizeList rest
end

/-! ## The validity predicate of a selected point element

`goodPoint e` says the element the loop consults — its first direct `coords`
child — exists and carries non-empty `x`/`y` attributes accepted by `float`;
`recOf e` is the record the loop then appends. -/

def goodPoint (e : XElem) : Bool :=
  match e.find "coords" with
  | none => false
  | some c =>
      XElem.get c "x" "" != "" && XElem.get c "y" "" != "" &&
        (pyFloat (XElem.get c "x" "")).isSome && (pyFloat (XElem.get c "y" "")).isSome

def recOf (e : XElem) : PointRecord :=
  match e.find "coords" with
  | none => ⟨XElem.get e "label" "", .nan, .nan⟩
  | some c =>
      ⟨XElem.get e "label" "",
       (pyFloat (XElem.get c "x" "")).getD .nan,
       (pyFloat (XElem.get c "y" "")).getD .nan⟩

/-! ## A CSV reader

An independent reader for the `excel` dialect, used to state the spec's
round-trip property: one field is either quoted (quote chars doubled inside)
or runs to the next delimiter / line terminator; rows are comma-separated
and end at CRLF or end of input. -/

/-- Read an unquoted field: everything up to the next `,`, CR or LF. -/
def parseUnquoted : List Char → List Char × List Char
  | [] => ([], [])
  | c :: cs =>
      if c = ',' ∨ c = '\r' ∨ c = '\n' then ([], c :: cs)
      else
        let r := parseUnquoted cs
        (c :: r.1, r.2)

/-- Read the body of a quoted field after its opening quote: a doubled quote
stands for one quote char, a lone quote closes the field; `none` on an
unterminated field. -/
def parseQuotedBody : List Char → Option (List Char × List Char)
  | [] => none
  | c :: cs =>
      if c = '"' then
        match cs with
        | [] => some ([], [])
        | c2 :: cs2 =>
            if c2 = '"' then (parseQuotedBody cs2).map (fun r => ('"' :: r.1, r.2))
            else some ([], cs)
      else (parseQuotedBody cs).map (fun r => (c :: r.1, r.2))

/-- Read one field (quoted or unquoted). -/
def parseField : List Char → Option (List Char × List Char)
  | [] => some ([], [])
  | c :: cs => if c = '"' then parseQuotedBody cs else some (parseUnquoted (c :: cs))

/-- Read one row: fields separated by `,`, ending at CRLF or end of input.
The fuel bounds the number of fields. -/
def parseRowFuel : Nat → List Char → Option (List (List Char) × List Char)
  | 0, _ => none
  | n + 1, s =>
      match parseField s with
      | none => none
      | some (f, rest) =>
          match rest with
          | [] => some ([f], [])
          | c :: r =>
              if c = ',' then (parseRowFuel n r).map (fun t => (f :: t.1, t.2))
              else if c = '\r' then
                match r with
                | [] => none
                | c2 :: r2 => if c2 = '\n' then some ([f], r2) else none
              else none

/-- Read all rows until end of input.  The fuel bounds the number of rows. -/
def parseRowsFuel : Nat → List Char → Option (List (List (List Char)))
  | 0, s => if s = [] then some [] else none
  | n + 1, s =>
      if s = [] then some []
      else
        match parseRowFuel (s.length + 1) s with
        | none => none
        | some (row, rest) => (parseRowsFuel n rest).map (fun rs => row :: rs)

/-- Parse a CSV text back into its rows of fields. -/
def csvParse (s : String) : Option (List (List String)) :=
  (parseRowsFuel (s.data.length + 1) s.data).map
    (fun rows => rows.map (fun r => r.map (fun f => (⟨f⟩ : String))))

/-- What may legally follow a rendered field: end of row data, a field
separator, or the CR of the row terminator. -/
def stopsField : List Char → Prop
  | [] => True
  | c :: _ => c = ',' ∨ c = '\r'

instance : DecidableEq XmlSource := fun a b =>
  match a, b with
  | .malformed, .malformed => isTrue rfl
  | .wellFormed r1, .wellFormed r2 => decidable_of_iff (r1 = r2) (by simp)
  | .malformed, .wellFormed _ => isFalse (by simp)
  | .wellFormed _, .malformed => isFalse (by simp)

instance : DecidableEq FileContent := fun a b =>
  match a, b with
  | .notZip, .notZip => isTrue rfl
  | .zip m1, .zip m2 => decidable_of_iff (m1 = m2) (by simp)
  | .notZip, .zip _ => isFalse (by simp)
  | .zip _, .notZip => isFalse (by simp)

/-! ## Concrete sample inputs for the testable scenarios -/

def elemA : XElem :=
  .mk "element" [("type", "point"), ("label", "A")] [
    .mk "coords" [("x", "1.5"), ("y", "-2.0")] []]

def elemB : XElem :=
  .mk "element" [("type", "point"), ("label", "B")] [
    .mk "coords" [("x", "0"), ("y", "0")] []]

/-- The spec's §8 scenario: two points `A (1.5, -2.0)` and `B (0, 0)`, plus
a non-point element. -/
def doc1 : XElem :=
  .mk "geogebra" [] [
    .mk "construction" [] [
      elemA,
      elemB,
      .mk "element" [("type", "numeric"), ("label", "n")] []]]

def fs1 : String → Option FileContent := fun q =>
  if q = "dir/archive.ggb" then some (.zip [("geogebra.xml", .wellFormed doc1)]) else none

/-- A descriptor with a point whose `x` parses to infinity (`A`), a point
with an empty `x` (`E`), and a point with an unparseable `x` (`W`). -/
def infDoc : XElem :=
  .mk "geogebra" [] [
    .mk "element" [("type", "point"), ("label", "A")] [
      .mk "coords" [("x", "inf"), ("y", "0")] []],
    .mk "element" [("type", "point"), ("label", "E")] [
      .mk "coords" [("x", ""), ("y", "1")] []],
    .mk "element" [("type", "point"), ("label", "W")] [
      .mk "coords" [("x", "abc"), ("y", "2")] []]]

def fsInf : String → Option FileContent :=
  fun _ => some (.zip [("geogebra.xml", .wellFormed infDoc)])

/-- A well-formed descriptor whose root element itself is a point element. -/
def rootPointDoc : XElem :=
  .mk "element" [("type", "point"), ("label", "R")] [
    .mk "coords" [("x", "1"), ("y", "2")] []]

def fsRootPoint : String → Option FileContent :=
  fun _ => some (.zip [("geogebra.xml", .wellFormed rootPointDoc)])

def elemG : XElem :=
  .mk "element" [("type", "point"), ("label", "G")] [
    .mk "coords" [("x", "1"), ("y", "2")] []]

def elemS : XElem :=
  .mk "element" [("type", "point"), ("label", "S")] []

def elemT : XElem :=
  .mk "element" [("type", "point"), ("label", "T")] [
    .mk "coords" [("x", "3"), ("y", "")] []]

/-- A descriptor with a good point, a point with no `coords` child, and a
point with an empty `y`; used for the skip scenarios. -/
def skipDoc : XElem :=
  .mk "geogebra" [] [elemG, elemS, elemT]

def fsSkip : String → Option FileContent :=
  fun _ => some (.zip [("geogebra.xml", .wellFormed skipDoc)])

/-- A point element with two `coords` children; only the first is consulted. -/
def firstCoords : XElem :=
  .mk "coords" [("x", "7"), ("y", "8")] []

def secondCoords : XElem :=
  .mk "coords" [("x", "9"), ("y", "10")] []

/-- A point element carrying both `coords` children above. -/
def dupElem : XElem :=
  .mk "element" [("type", "point"), ("label", "D")] [firstCoords, secondCoords]

def fsNotZip : String → Option FileContent := fun _ => some .notZip

def fsNoMember : String → Option FileContent :=
  fun _ => some (.zip [("thumbnail.png", .malformed)])

def fsBadXml : String → Option FileContent :=
  fun _ => some (.zip [("geogebra.xml", .malformed)])

def fsNothing : String → Option FileContent := fun _ => none

/-! ## Helper lemmas -/

theorem processElement_good (e : XElem) (h : goodPoint e = true) :
    processElement e = .record (recOf e) := by
  rw [goodPoint] at h
  cases hf : e.find "coords" with
  | none => rw [hf] at h; exact absurd h (by simp)
  | some c =>
      rw [hf] at h
      rw [Bool.and_eq_true, Bool.and_eq_true, Bool.and_eq_true] at h
      obtain ⟨⟨⟨hx, hy⟩, hxs⟩, hys⟩ := h
      rw [bne_iff_ne] at hx hy
      rw [Option.isSome_iff_exists] at hxs hys
      obtain ⟨xv, hxv⟩ := hxs
      obtain ⟨yv, hyv⟩ := hys
      simp only [processElement, recOf, hf, hxv, hyv, Option.getD_some]
      rw [if_pos ⟨hx, hy⟩]

theorem recordPart_good (e : XElem) (h : goodPoint e = true) :
    recordPart e = some (recOf e) := by
  rw [recordPart, processElement_good e h]

theorem outcomeRecords_good (es : List XElem) (h : ∀ e ∈ es, goodPoint e = true) :
    outcomeRecords es = es.map recOf := by
  induction es with
  | nil => rfl
  | cons e rest ih =>
      rw [outcomeRecords, List.filterMap_cons, recordPart_good e (h e (.head _)),
        List.map_cons]
      rw [outcomeRecords] at ih
      rw [ih (fun e' he' => h e' (.tail _ he'))]

/-- Unfolding of a run that reaches the conversion loop. -/
theorem extract_ok (fs : String → Option FileContent) (p : String)
    (outOpt : Option String) (members : List (String × XmlSource)) (root : XElem)
    (hfs : fs p = some (.zip members))
    (hmem : lookupMember members "geogebra.xml" = some (.wellFormed root)) :
    extract_points_from_ggb fs p outOpt =
      ⟨.ok (outcomeRecords (pointElements root)), outcomeWarnings (pointElements root),
        if (outcomeRecords (pointElements root)).isEmpty then []
        else [(outOpt.getD (defaultOutputPath p), renderCsvFile (outcomeRecords (pointElements root)))]⟩ := by
  rw [extract_points_from_ggb, hfs]
  simp only [hmem]

mutual
theorem xsize_lt_of_mem_descendants (e e' : XElem) (h : e' ∈ descendants e) :
    xsize e' < xsize e :=
  match e with
  | .mk _ _ cs =>
      Nat.lt_of_le_of_lt (xsize_le_of_mem_descList cs e' h) (Nat.lt_succ_self _)

theorem xsize_le_of_mem_descList (cs : List XElem) (e' : XElem) (h : e' ∈ descList cs) :
    xsize e' ≤ xsizeList cs :=
  match cs with
  | [] => absurd h (by simp [descList])
  | c :: rest => by
      rw [descList] at h
      rcases List.mem_cons.mp h with h1 | h2
      · rw [h1, xsizeList]; omega
      · rcases List.mem_append.mp h2 with h3 | h4
        · have := xsize_lt_of_mem_descendants c e' h3
          rw [xsizeList]; omega
        · have := xsize_le_of_mem_descList rest e' h4
          rw [xsizeList]; omega
end

theorem root_not_mem_descendants (root : XElem) : root ∉ descendants root :=
  fun h => absurd (xsize_lt_of_mem_descendants root root h) (lt_irrefl _)

theorem processElement_skip (e : XElem)
    (h : e.find "coords" = none ∨
      ∃ c, e.find "coords" = some c ∧ (XElem.get c "x" "" = "" ∨ XElem.get c "y" "" = "")) :
    processElement e = .skip := by
  rcases h with h | ⟨c, hc, hxy⟩
  · simp only [processElement, h]
  · simp only [processElement, hc]
    rw [if_neg]
    intro ⟨hx, hy⟩
    rcases hxy with h1 | h1 <;> [exact hx h1; exact hy h1]

theorem processElement_warn (e : XElem) (c : XElem)
    (hc : e.find "coords" = some c)
    (hx : XElem.get c "x" "" ≠ "") (hy : XElem.get c "y" "" ≠ "")
    (hfail : pyFloat (XElem.get c "x" "") = none ∨ pyFloat (XElem.get c "y" "") = none) :
    processElement e = .warn ⟨XElem.get e "label" "", XElem.get c "x" "", XElem.get c "y" ""⟩ := by
  simp only [processElement, hc]
  rw [if_pos ⟨hx, hy⟩]
  rcases hfail with h | h
  · rw [h]
  · rw [h]; cases pyFloat (XElem.get c "x" "") <;> rfl

/-- Where each returned record comes from: a selected element whose first
`coords` child's attributes both passed `float` conversion. -/
theorem record_origin (es : List XElem) (r : PointRecord)
    (h : r ∈ outcomeRecords es) :
    ∃ e ∈ es, ∃ c, e.find "coords" = some c ∧
      pyFloat (XElem.get c "x" "") = some r.x ∧
      pyFloat (XElem.get c "y" "") = some r.y ∧
      r.label = XElem.get e "label" "" := by
  rw [outcomeRecords] at h
  obtain ⟨e, he, hr⟩ := List.mem_filterMap.mp h
  refine ⟨e, he, ?_⟩
  rw [recordPart] at hr
  cases hp : processElement e with
  | record r' =>
      rw [hp] at hr
      have hrr : r' = r := by simpa using hr
      rw [processElement] at hp
      cases hc : e.find "coords" with
      | none => rw [hc] at hp; exact absurd hp (by simp)
      | some c =>
          rw [hc] at hp
          simp only [] at hp
          by_cases hxy : XElem.get c "x" "" ≠ "" ∧ XElem.get c "y" "" ≠ ""
          · rw [if_pos hxy] at hp
            cases hx : pyFloat (XElem.get c "x" "") with
            | none => rw [hx] at hp; exact absurd hp (by cases pyFloat (XElem.get c "y" "") <;> simp)
            | some xv =>
                cases hy : pyFloat (XElem.get c "y" "") with
                | none => rw [hx, hy] at hp; exact absurd hp (by simp)
                | some yv =>
                    rw [hx, hy] at hp
                    have := ElemOutcome.record.inj hp
                    refine ⟨c, rfl, ?_, ?_, ?_⟩
                    · rw [← hrr, ← this]; exact hx
                    · rw [← hrr, ← this]; exact hy
                    · rw [← hrr, ← this]
          · rw [if_neg hxy] at hp; exact absurd hp (by simp)
  | warn w => rw [hp] at hr; exact absurd hr (by simp)
  | skip => rw [hp] at hr; exact absurd hr (by simp)

/-! ## CSV round-trip lemmas -/

theorem parseUnquoted_exact (f rest : List Char) (hf : needsQuote f = false)
    (hrest : stopsField rest) : parseUnquoted (f ++ rest) = (f, rest) := by
  induction f with
  | nil =>
      cases rest with
      | nil => rfl
      | cons c r =>
          rw [stopsField] at hrest
          simp only [List.nil_append, parseUnquoted]
          rw [if_pos (by rcases hrest with h | h <;> simp [h])]
  | cons c f' ih =>
      rw [needsQuote, List.any_cons, Bool.or_eq_false_iff] at hf
      obtain ⟨hc, hf'⟩ := hf
      simp only [Bool.or_eq_false_iff, beq_eq_false_iff_ne, ne_eq] at hc
      obtain ⟨⟨⟨hc1, hc2⟩, hc3⟩, hc4⟩ := hc
      simp only [List.cons_append, parseUnquoted]
      rw [if_neg (by tauto)]
      have ihh := ih (by rw [needsQuote]; exact hf')
      rw [show f'.append rest = f' ++ rest from rfl, ihh]

theorem parseQuotedBody_exact (f rest : List Char) (hrest : stopsField rest) :
    parseQuotedBody (escQ f ++ '"' :: rest) = some (f, rest) := by
  induction f with
  | nil =>
      cases rest with
      | nil => rfl
      | cons c2 cs2 =>
          rw [stopsField] at hrest
          have hc2 : ¬ c2 = '"' := by rcases hrest with h | h <;> simp [h]
          show parseQuotedBody ('"' :: c2 :: cs2) = some ([], c2 :: cs2)
          simp [parseQuotedBody, hc2]
  | cons c f' ih =>
      by_cases hc : c = '"'
      · subst hc
        show parseQuotedBody (('"' :: '"' :: escQ f') ++ '"' :: rest) = some ('"' :: f', rest)
        simp only [List.cons_append, parseQuotedBody]
        simp [ih]
      · have he : escQ (c :: f') = c :: escQ f' := by rw [escQ, if_neg hc]
        rw [he, List.cons_append, parseQuotedBody.eq_def]
        simp only [if_neg hc]
        rw [ih]
        rfl

theorem parseField_exact (f rest : List Char) (hrest : stopsField rest) :
    parseField (renderField f ++ rest) = some (f, rest) := by
  by_cases hq : needsQuote f = true
  · rw [renderField, if_pos hq]
    have hsh : ('"' :: (escQ f ++ ['"'])) ++ rest = '"' :: (escQ f ++ '"' :: rest) := by
      simp [List.append_assoc]
    rw [hsh, parseField, if_pos rfl]
    exact parseQuotedBody_exact f rest hrest
  · have hq' : needsQuote f = false := by simpa using hq
    rw [renderField, if_neg (by simp [hq'])]
    cases hfc : f with
    | nil =>
        cases rest with
        | nil => rfl
        | cons c r =>
            rw [stopsField] at hrest
            simp only [List.nil_append, parseField]
            rw [if_neg (by rcases hrest with h | h <;> simp [h])]
            have := parseUnquoted_exact [] (c :: r) (by rfl) hrest
            rw [List.nil_append] at this
            rw [this]
    | cons c f' =>
        rw [hfc] at hq'
        have hc : ¬ c = '"' := by
          rw [needsQuote, List.any_cons, Bool.or_eq_false_iff] at hq'
          intro h
          simp [h] at hq'
        simp only [List.cons_append, parseField]
        rw [if_neg hc]
        have := parseUnquoted_exact (c :: f') rest hq' hrest
        rw [List.cons_append] at this
        rw [this]

theorem parseRowFuel_exact (fs : List (List Char)) :
    ∀ (n : Nat) (rest : List Char), fs ≠ [] → fs.length ≤ n →
    parseRowFuel n (renderFields fs ++ '\r' :: '\n' :: rest) = some (fs, rest) := by
  induction fs with
  | nil => intro n rest h _; exact absurd rfl h
  | cons f t ih =>
      intro n rest _ hlen
      cases t with
      | nil =>
          cases n with
          | zero => exact absurd hlen (by simp)
          | succ m =>
              rw [renderFields, parseRowFuel]
              rw [parseField_exact f ('\r' :: '\n' :: rest) (by rw [stopsField]; right; rfl)]
              simp
      | cons f2 t' =>
          cases n with
          | zero => exact absurd hlen (by simp)
          | succ m =>
              rw [show renderFields (f :: f2 :: t') =
                renderField f ++ ',' :: renderFields (f2 :: t') from rfl]
              have hsh : (renderField f ++ ',' :: renderFields (f2 :: t')) ++ '\r' :: '\n' :: rest =
                  renderField f ++ ',' :: (renderFields (f2 :: t') ++ '\r' :: '\n' :: rest) := by
                simp [List.append_assoc]
              rw [hsh, parseRowFuel]
              rw [parseField_exact f (',' :: (renderFields (f2 :: t') ++ '\r' :: '\n' :: rest))
                (by rw [stopsField]; left; rfl)]
              show Option.map (fun t => (f :: t.1, t.2))
                  (parseRowFuel m (renderFields (f2 :: t') ++ '\r' :: '\n' :: rest)) =
                some (f :: f2 :: t', rest)
              have hlen2 : (f2 :: t').length ≤ m := by simp at hlen ⊢; omega
              have hrec := ih m rest (List.cons_ne_nil f2 t') hlen2
              rw [hrec]
              rfl

theorem renderFields_length (fs : List (List Char)) :
    fs.length ≤ (renderFields fs).length + 1 := by
  induction fs with
  | nil => simp [renderFields]
  | cons f t ih =>
      cases t with
      | nil => simp [renderFields]
      | cons f2 t' =>
          rw [show renderFields (f :: f2 :: t') =
            renderField f ++ ',' :: renderFields (f2 :: t') from rfl]
          simp only [List.length_append, List.length_cons] at ih ⊢
          omega

theorem renderRows_length (rows : List (List (List Char))) :
    rows.length ≤ (renderRows rows).length := by
  induction rows with
  | nil => simp [renderRows]
  | cons r rs ih =>
      rw [renderRows, renderRow]
      simp only [List.length_append, List.length_cons] at ih ⊢
      omega

theorem parseRowsFuel_exact (rows : List (List (List Char))) :
    ∀ n, (∀ r ∈ rows, r ≠ []) → rows.length ≤ n →
    parseRowsFuel n (renderRows rows) = some rows := by
  induction rows with
  | nil =>
      intro n _ _
      cases n with
      | zero => rfl
      | succ m => rfl
  | cons r rs ih =>
      intro n hne hlen
      cases n with
      | zero => exact absurd hlen (by simp)
      | succ m =>
          have hr : r ≠ [] := hne r (.head _)
          have hinput : renderRows (r :: rs) = renderFields r ++ '\r' :: '\n' :: renderRows rs := by
            rw [renderRows, renderRow]
            simp [List.append_assoc]
          have hinne : renderFields r ++ '\r' :: '\n' :: renderRows rs ≠ [] := by simp
          rw [parseRowsFuel, hinput, if_neg hinne]
          have hfuel : r.length ≤ (renderFields r ++ '\r' :: '\n' :: renderRows rs).length + 1 := by
            have := renderFields_length r
            simp only [List.length_append, List.length_cons]
            omega
          rw [parseRowFuel_exact r _ (renderRows rs) hr hfuel]
          show (parseRowsFuel m (renderRows rs)).map (fun rs2 => r :: rs2) = some (r :: rs)
          rw [ih m (fun r2 h2 => hne r2 (.tail _ h2)) (by simp at hlen ⊢; omega)]
          rfl

/-- Writing any record list with the extractor's CSV writer and re-reading
it yields the header plus one `[label, x-repr, y-repr]` row per record. -/
theorem csvParse_render (recs : List PointRecord) :
    csvParse (renderCsvFile recs) =
      some (["点名称", "x", "y"] :: recs.map (fun r => [r.label, pyRepr r.x, pyRepr r.y])) := by
  rw [csvParse]
  have hd : (renderCsvFile recs).data = renderRows (headerFields :: recs.map recordFields) := rfl
  rw [hd]
  have hne : ∀ r ∈ headerFields :: recs.map recordFields, r ≠ [] := by
    intro r hmem
    rcases List.mem_cons.mp hmem with h | h
    · rw [h, headerFields]; simp
    · obtain ⟨p, _, hp⟩ := List.mem_map.mp h
      rw [← hp, recordFields]; simp
  have hlen : (headerFields :: recs.map recordFields).length ≤
      (renderRows (headerFields :: recs.map recordFields)).length + 1 := by
    have := renderRows_length (headerFields :: recs.map recordFields)
    omega
  rw [parseRowsFuel_exact _ _ hne hlen]
  show some ((headerFields :: recs.map recordFields).map
    (fun r => r.map (fun f => ({ data := f } : String)))) = _
  rw [List.map_cons, List.map_map]
  rfl

/-- Unfolding of a run on a file that fails to open as a ZIP archive. -/
theorem extract_badzip (fs : String → Option FileContent) (p : String)
    (outOpt : Option String) (hfs : fs p = some .notZip) :
    extract_points_from_ggb fs p outOpt = ⟨.error .badZipFile, [], []⟩ := by
  rw [extract_points_from_ggb, hfs]

/-- Unfolding of a run on a ZIP archive with no `geogebra.xml` member. -/
theorem extract_missing_member (fs : String → Option FileContent) (p : String)
    (outOpt : Option String) (members : List (String × XmlSource))
    (hfs : fs p = some (.zip members))
    (hm : lookupMember members "geogebra.xml" = none) :
    extract_points_from_ggb fs p outOpt = ⟨.error .missingMember, [], []⟩ := by
  rw [extract_points_from_ggb, hfs]
  simp only [hm]

/-- Unfolding of a run whose `geogebra.xml` member is not well-formed XML. -/
theorem extract_malformed_xml (fs : String → Option FileContent) (p : String)
    (outOpt : Option String) (members : List (String × XmlSource))
    (hfs : fs p = some (.zip members))
    (hm : lookupMember members "geogebra.xml" = some .malformed) :
    extract_points_from_ggb fs p outOpt = ⟨.error .xmlParseError, [], []⟩ := by
  rw [extract_points_from_ggb, hfs]
  simp only [hm]

/-- `find` skips children whose tag does not match. -/
theorem findChild_skip (t0 : String) (pre rest : List XElem)
    (hpre : ∀ c' ∈ pre, c'.tag ≠ t0) :
    findChild (pre ++ rest) t0 = findChild rest t0 := by
  induction pre with
  | nil => rfl
  | cons p pre' ih =>
      rw [List.cons_append, findChild, if_neg (hpre p (.head _))]
      exact ih (fun c' h => hpre c' (.tail _ h))

/-! ## Claim theorems -/

/-- C1: for every valid archive whose descriptor contains point elements
whose consulted (first) direct `coords` child carries non-empty `x`/`y`
attributes accepted by `float`, the run returns one record per selected
element (`recOf`), in document order, so the ResultSet has exactly N
records in source order. -/
theorem extract_all_valid_points (fs : String → Option FileContent) (p : String)
    (outOpt : Option String) (members : List (String × XmlSource)) (root : XElem)
    (hfs : fs p = some (.zip members))
    (hmem : lookupMember members "geogebra.xml" = some (.wellFormed root))
    (hgood : ∀ e ∈ pointElements root, goodPoint e = true) :
    (extract_points_from_ggb fs p outOpt).result = .ok ((pointElements root).map recOf) ∧
    ((pointElements root).map recOf).length = (pointElements root).length := by
  constructor
  · rw [extract_ok fs p outOpt members root hfs hmem]
    show Except.ok (outcomeRecords (pointElements root)) = _
    rw [outcomeRecords_good _ hgood]
  · exact List.length_map _ _

/-- Witness for C1 on the two-point scenario document. -/
theorem extract_all_valid_points_witness :
    fs1 "dir/archive.ggb" = some (.zip [("geogebra.xml", .wellFormed doc1)]) ∧
    (∀ e ∈ pointElements doc1, goodPoint e = true) ∧
    (extract_points_from_ggb fs1 "dir/archive.ggb" none).result =
      .ok ((pointElements doc1).map recOf) :=
  ⟨by decide, by decide,
    (extract_all_valid_points fs1 "dir/archive.ggb" none
      [("geogebra.xml", .wellFormed doc1)] doc1 (by decide) (by decide) (by decide)).1⟩

/-- C2 counterexample: on a descriptor with points `A (x="inf")`,
`E (x="")` and `W (x="abc")`, the run keeps a record for `A` whose `x` is
not finite (so not every appended record is a finite decimal), and warns
only for `W` (the empty-attribute element is dropped without a warning). -/
theorem nonfinite_record_kept_cex :
    (extract_points_from_ggb fsInf "calc.ggb" (some "out.csv")).result =
      .ok [⟨"A", .inf false, .finite 0 0⟩] ∧
    (PyFloat.inf false).isFinite = false ∧
    pyFloat "inf" = some (.inf false) ∧
    (extract_points_from_ggb fsInf "calc.ggb" (some "out.csv")).warnings =
      [⟨"W", "abc", "2"⟩] := by
  refine ⟨by decide, rfl, by decide, by decide⟩

/-- C2 (amended): every appended record's `x`/`y` are values of successful
`float` conversions of the consulted `coords` attributes (such values may be
infinite or NaN); every selected element with non-empty but unconvertible
`x`/`y` is discarded with exactly one warning carrying its label, and the
run still completes normally. -/
theorem records_from_successful_conversion (fs : String → Option FileContent)
    (p : String) (outOpt : Option String) (members : List (String × XmlSource))
    (root : XElem)
    (hfs : fs p = some (.zip members))
    (hmem : lookupMember members "geogebra.xml" = some (.wellFormed root)) :
    (∀ r ∈ outcomeRecords (pointElements root),
      ∃ e ∈ pointElements root, ∃ c, e.find "coords" = some c ∧
        pyFloat (XElem.get c "x" "") = some r.x ∧
        pyFloat (XElem.get c "y" "") = some r.y ∧
        r.label = XElem.get e "label" "") ∧
    (∀ e ∈ pointElements root, ∀ c, e.find "coords" = some c →
      XElem.get c "x" "" ≠ "" → XElem.get c "y" "" ≠ "" →
      (pyFloat (XElem.get c "x" "") = none ∨ pyFloat (XElem.get c "y" "") = none) →
      recordPart e = none ∧
      warnPart e = some ⟨XElem.get e "label" "", XElem.get c "x" "", XElem.get c "y" ""⟩) ∧
    (extract_points_from_ggb fs p outOpt).result = .ok (outcomeRecords (pointElements root)) := by
  refine ⟨fun r hr => record_origin _ r hr, ?_, ?_⟩
  · intro e _ c hc hx hy hfail
    have hw := processElement_warn e c hc hx hy hfail
    exact ⟨by rw [recordPart, hw], by rw [warnPart, hw]⟩
  · rw [extract_ok fs p outOpt members root hfs hmem]

/-- Witness for the amended C2 on the `inf`/empty/`abc` document. -/
theorem records_from_successful_conversion_witness :
    fsInf "calc.ggb" = some (.zip [("geogebra.xml", .wellFormed infDoc)]) ∧
    (extract_points_from_ggb fsInf "calc.ggb" none).result =
      .ok (outcomeRecords (pointElements infDoc)) :=
  ⟨by decide,
    (records_from_successful_conversion fsInf "calc.ggb" none
      [("geogebra.xml", .wellFormed infDoc)] infDoc (by decide) (by decide)).2.2⟩

/-- C3 counterexample: a well-formed descriptor whose root is itself
`<element type="point">` with good coordinates; the selection is empty, so
the matching root element is omitted from consideration. -/
theorem root_point_element_omitted_cex :
    isPointElement rootPointDoc = true ∧
    goodPoint rootPointDoc = true ∧
    pointElements rootPointDoc = [] ∧
    (extract_points_from_ggb fsRootPoint "r.ggb" none).result = .ok [] ∧
    (extract_points_from_ggb fsRootPoint "r.ggb" none).files = [] := by
  refine ⟨by decide, by decide, by decide, by decide, by decide⟩

/-- C3 (amended): the selection consists of elements strictly below the
parsed root: every proper descendant (at any depth) whose tag is `element`
with `type="point"` is selected, and the root element itself never is. -/
theorem pointElements_complete (root : XElem) (e : XElem)
    (hmem : e ∈ descendants root) (hsel : isPointElement e = true) :
    e ∈ pointElements root ∧ root ∉ pointElements root := by
  constructor
  · rw [pointElements]
    exact List.mem_filter.mpr ⟨hmem, hsel⟩
  · intro hmem2
    exact root_not_mem_descendants root (List.mem_of_mem_filter hmem2)

/-- Witness for the amended C3: a nested point element of the scenario
document is selected. -/
theorem pointElements_complete_witness :
    elemA ∈ descendants doc1 ∧ isPointElement elemA = true ∧
    elemA ∈ pointElements doc1 :=
  ⟨by decide, by decide, (pointElements_complete doc1 elemA (by decide) (by decide)).1⟩

/-- C4: a file that is not a valid ZIP archive, a ZIP archive without a
`geogebra.xml` member, or one whose member is malformed XML makes the run
raise a format error (a `ValueError`, distinct from the not-found error) and
write no output file. -/
theorem extract_format_error (fs : String → Option FileContent) (p : String)
    (outOpt : Option String)
    (h : fs p = some .notZip ∨
      ∃ members, fs p = some (.zip members) ∧
        (lookupMember members "geogebra.xml" = none ∨
         lookupMember members "geogebra.xml" = some .malformed)) :
    ∃ err, (extract_points_from_ggb fs p outOpt).result = .error err ∧
      err.isFormatError = true ∧ err ≠ .fileNotFound ∧
      (extract_points_from_ggb fs p outOpt).files = [] ∧
      (extract_points_from_ggb fs p outOpt).warnings = [] := by
  rcases h with h | ⟨members, hm, h2 | h2⟩
  · exact ⟨.badZipFile, by rw [extract_badzip fs p outOpt h], rfl, by decide,
      by rw [extract_badzip fs p outOpt h], by rw [extract_badzip fs p outOpt h]⟩
  · exact ⟨.missingMember, by rw [extract_missing_member fs p outOpt members hm h2], rfl,
      by decide, by rw [extract_missing_member fs p outOpt members hm h2],
      by rw [extract_missing_member fs p outOpt members hm h2]⟩
  · exact ⟨.xmlParseError, by rw [extract_malformed_xml fs p outOpt members hm h2], rfl,
      by decide, by rw [extract_malformed_xml fs p outOpt members hm h2],
      by rw [extract_malformed_xml fs p outOpt members hm h2]⟩

/-- Witness for C4: a ZIP archive carrying only a thumbnail member. -/
theorem extract_format_error_witness :
    (fsNoMember "a.ggb" = some (.zip [("thumbnail.png", .malformed)]) ∧
      lookupMember [("thumbnail.png", .malformed)] "geogebra.xml" = none) ∧
    ∃ err, (extract_points_from_ggb fsNoMember "a.ggb" none).result = .error err ∧
      err.isFormatError = true ∧ err ≠ .fileNotFound ∧
      (extract_points_from_ggb fsNoMember "a.ggb" none).files = [] ∧
      (extract_points_from_ggb fsNoMember "a.ggb" none).warnings = [] :=
  ⟨⟨by decide, by decide⟩,
    extract_format_error fsNoMember "a.ggb" none
      (.inr ⟨[("thumbnail.png", .malformed)], by decide, .inl (by decide)⟩)⟩

/-- C5: a missing archive path makes the run raise the not-found error with
nothing else happening — for every archive content map and every output
option, so before the archive is opened and before any file is written. -/
theorem extract_not_found (fs : String → Option FileContent) (p : String)
    (outOpt : Option String) (h : fs p = none) :
    extract_points_from_ggb fs p outOpt = ⟨.error .fileNotFound, [], []⟩ := by
  rw [extract_points_from_ggb, h]

/-- Witness for C5. -/
theorem extract_not_found_witness :
    fsNothing "ghost.ggb" = none ∧
    extract_points_from_ggb fsNothing "ghost.ggb" none = ⟨.error .fileNotFound, [], []⟩ :=
  ⟨rfl, extract_not_found fsNothing "ghost.ggb" none rfl⟩

/-- C6: a selected point element with no direct `coords` child, or whose
consulted `coords` child has an absent/empty `x` or `y`, contributes neither
a record nor a warning; the run completes normally on the remaining
elements, raising no error. -/
theorem skipped_element_contributes_nothing (fs : String → Option FileContent)
    (p : String) (outOpt : Option String) (members : List (String × XmlSource))
    (root : XElem) (l1 l2 : List XElem) (e : XElem)
    (hfs : fs p = some (.zip members))
    (hmem : lookupMember members "geogebra.xml" = some (.wellFormed root))
    (hsplit : pointElements root = l1 ++ e :: l2)
    (hskip : e.find "coords" = none ∨
      ∃ c, e.find "coords" = some c ∧
        (XElem.get c "x" "" = "" ∨ XElem.get c "y" "" = "")) :
    (extract_points_from_ggb fs p outOpt).result = .ok (outcomeRecords (l1 ++ l2)) ∧
    (extract_points_from_ggb fs p outOpt).warnings = outcomeWarnings (l1 ++ l2) := by
  have hsk := processElement_skip e hskip
  have hrp : recordPart e = none := by rw [recordPart, hsk]
  have hwp : warnPart e = none := by rw [warnPart, hsk]
  have h1 : outcomeRecords (l1 ++ e :: l2) = outcomeRecords (l1 ++ l2) := by
    rw [outcomeRecords, outcomeRecords, List.filterMap_append, List.filterMap_append,
      List.filterMap_cons_none hrp]
  have h2 : outcomeWarnings (l1 ++ e :: l2) = outcomeWarnings (l1 ++ l2) := by
    rw [outcomeWarnings, outcomeWarnings, List.filterMap_append, List.filterMap_append,
      List.filterMap_cons_none hwp]
  rw [extract_ok fs p outOpt members root hfs hmem]
  exact ⟨by show Except.ok _ = _; rw [hsplit, h1], by show outcomeWarnings _ = _; rw [hsplit, h2]⟩

/-- Witness for C6: the document with a good point, a point with no
`coords` child, and a point with an empty `y`. -/
theorem skipped_element_contributes_nothing_witness :
    (pointElements skipDoc = [elemG] ++ elemS :: [elemT] ∧
      XElem.find elemS "coords" = none) ∧
    (extract_points_from_ggb fsSkip "s.ggb" none).result =
      .ok (outcomeRecords ([elemG] ++ [elemT])) :=
  ⟨⟨by decide, by decide⟩,
    (skipped_element_contributes_nothing fsSkip "s.ggb" none
      [("geogebra.xml", .wellFormed skipDoc)] skipDoc [elemG] [elemT] elemS
      (by decide) (by decide) (by decide) (.inl (by decide))).1⟩

/-- C7: the run writes its output file exactly when the ResultSet is
non-empty; the written text is the header row `点名称,x,y` followed by one
row per record in ResultSet order (witnessed through the CSV reader), and
an empty ResultSet is still returned with no file written. -/
theorem output_file_iff_nonempty (fs : String → Option FileContent) (p : String)
    (outOpt : Option String) (members : List (String × XmlSource)) (root : XElem)
    (hfs : fs p = some (.zip members))
    (hmem : lookupMember members "geogebra.xml" = some (.wellFormed root)) :
    (extract_points_from_ggb fs p outOpt).result = .ok (outcomeRecords (pointElements root)) ∧
    ((extract_points_from_ggb fs p outOpt).files = [] ↔
      outcomeRecords (pointElements root) = []) ∧
    (outcomeRecords (pointElements root) ≠ [] →
      (extract_points_from_ggb fs p outOpt).files =
        [(outOpt.getD (defaultOutputPath p),
          renderCsvFile (outcomeRecords (pointElements root)))] ∧
      csvParse (renderCsvFile (outcomeRecords (pointElements root))) =
        some (["点名称", "x", "y"] ::
          (outcomeRecords (pointElements root)).map
            (fun r => [r.label, pyRepr r.x, pyRepr r.y]))) := by
  rw [extract_ok fs p outOpt members root hfs hmem]
  refine ⟨rfl, ?_, ?_⟩
  · show (if (outcomeRecords (pointElements root)).isEmpty then [] else _) = [] ↔ _
    by_cases hemp : (outcomeRecords (pointElements root)).isEmpty
    · rw [if_pos hemp]
      simp [List.isEmpty_iff] at hemp
      simp [hemp]
    · rw [if_neg hemp]
      simp only [List.isEmpty_iff] at hemp
      simp [hemp]
  · intro hne
    show (if (outcomeRecords (pointElements root)).isEmpty then [] else _) = _ ∧ _
    rw [if_neg (by simpa [List.isEmpty_iff] using hne)]
    exact ⟨rfl, csvParse_render _⟩

/-- Witness for C7 on the two-point scenario document. -/
theorem output_file_iff_nonempty_witness :
    fs1 "dir/archive.ggb" = some (.zip [("geogebra.xml", .wellFormed doc1)]) ∧
    ((extract_points_from_ggb fs1 "dir/archive.ggb" none).files = [] ↔
      outcomeRecords (pointElements doc1) = []) :=
  ⟨by decide,
    (output_file_iff_nonempty fs1 "dir/archive.ggb" none
      [("geogebra.xml", .wellFormed doc1)] doc1 (by decide) (by decide)).2.1⟩

/-- C8: when the output path is omitted, the file is written at
`dirname(archivePath)` joined with the archive's stem plus `_points.csv`. -/
theorem default_output_path_used (fs : String → Option FileContent) (p : String)
    (members : List (String × XmlSource)) (root : XElem)
    (hfs : fs p = some (.zip members))
    (hmem : lookupMember members "geogebra.xml" = some (.wellFormed root))
    (hne : outcomeRecords (pointElements root) ≠ []) :
    (extract_points_from_ggb fs p none).files =
      [(posixJoin (posixDirname p) (pathStem p ++ "_points.csv"),
        renderCsvFile (outcomeRecords (pointElements root)))] := by
  rw [extract_ok fs p none members root hfs hmem]
  show (if (outcomeRecords (pointElements root)).isEmpty then [] else _) = _
  rw [if_neg (by simpa [List.isEmpty_iff] using hne)]
  rfl

/-- Witness for C8 on the two-point scenario document. -/
theorem default_output_path_used_witness :
    posixJoin (posixDirname "dir/archive.ggb") (pathStem "dir/archive.ggb" ++ "_points.csv") =
      "dir/archive_points.csv" ∧
    outcomeRecords (pointElements doc1) ≠ [] ∧
    (extract_points_from_ggb fs1 "dir/archive.ggb" none).files =
      [(posixJoin (posixDirname "dir/archive.ggb") (pathStem "dir/archive.ggb" ++ "_points.csv"),
        renderCsvFile (outcomeRecords (pointElements doc1)))] :=
  ⟨by decide, by decide,
    default_output_path_used fs1 "dir/archive.ggb"
      [("geogebra.xml", .wellFormed doc1)] doc1 (by decide) (by decide) (by decide)⟩

/-- C9: serialising any ResultSet with the writer and parsing the text back
yields exactly the header and the `(label, x, y)` triples of the original
records in order, with `x`/`y` given by their rendering (the spec's "modulo
the original floating-point representation"). -/
theorem csv_round_trip (recs : List PointRecord) :
    csvParse (renderCsvFile recs) =
      some (["点名称", "x", "y"] :: recs.map (fun r => [r.label, pyRepr r.x, pyRepr r.y])) :=
  csvParse_render recs

/-- C10: only the first direct `coords` child of a point element is
consulted: `find` returns it, and the processing outcome is unchanged under
any replacement of the children after it. -/
theorem first_coords_child_only (t : String) (attrs : List (String × String))
    (pre post post' : List XElem) (c : XElem)
    (hc : c.tag = "coords") (hpre : ∀ c' ∈ pre, c'.tag ≠ "coords") :
    XElem.find (.mk t attrs (pre ++ c :: post)) "coords" = some c ∧
    processElement (.mk t attrs (pre ++ c :: post)) =
      processElement (.mk t attrs (pre ++ c :: post')) := by
  have hfind : ∀ post0 : List XElem,
      XElem.find (.mk t attrs (pre ++ c :: post0)) "coords" = some c := by
    intro post0
    show findChild (pre ++ c :: post0) "coords" = some c
    rw [findChild_skip "coords" pre (c :: post0) hpre, findChild, if_pos hc]
  have hget : ∀ X : List XElem,
      XElem.get (.mk t attrs X) "label" "" = (lookupAttr attrs "label").getD "" :=
    fun X => rfl
  refine ⟨hfind post, ?_⟩
  simp only [processElement, hfind post, hfind post', hget]

/-- Witness for C10: the element with two `coords` children. -/
theorem first_coords_child_only_witness :
    XElem.tag firstCoords = "coords" ∧
    XElem.find dupElem "coords" = some firstCoords ∧
    processElement dupElem =
      processElement (.mk "element" [("type", "point"), ("label", "D")] [firstCoords]) :=
  ⟨by decide,
    (first_coords_child_only "element" [("type", "point"), ("label", "D")]
      [] [secondCoords] [] firstCoords (by decide) (by decide)).1,
    (first_coords_child_only "element" [("type", "point"), ("label", "D")]
      [] [secondCoords] [] firstCoords (by decide) (by decide)).2⟩
